import Mathlib

/-!
Verification development for the AuditBot pipeline (`app.py`).

Python strings are modelled as `List Char` (Python `len` and slicing count
code points, as `List.length`/`List.take` do).  External effects — pypdf page
extraction, OCR, the Gemini network call, the model listing — are modelled as
injected outcomes (`Except PyExc _` parameters), mirroring the code's
try/except structure; an `Except.error` input corresponds to the external
call raising an exception.  Everything else is translated directly from
`app.py`.
-/

abbrev PyStr := List Char

/-- Whitespace stripped by Python's `str.strip()` (characters `c` with
`c.isspace()`): ASCII whitespace, the C1/Unicode space and line separators. -/
def isPyWS (c : Char) : Bool :=
  c = ' ' || c = '\t' || c = '\n' || c = '\r' || c = '\x0b' || c = '\x0c' ||
  (0x1c ≤ c.toNat && c.toNat ≤ 0x1f) || c.toNat = 0x85 || c.toNat = 0xa0 ||
  c.toNat = 0x1680 || (0x2000 ≤ c.toNat && c.toNat ≤ 0x200a) ||
  c.toNat = 0x2028 || c.toNat = 0x2029 || c.toNat = 0x202f ||
  c.toNat = 0x205f || c.toNat = 0x3000

/-- Python `str.strip()`: drop leading and trailing whitespace. -/
def pyStrip (l : PyStr) : PyStr :=
  ((l.dropWhile isPyWS).reverse.dropWhile isPyWS).reverse

/-- Characters matched by the regex class `[\t\r ]` in `_clean_text`. -/
def isHWS (c : Char) : Bool := c = '\t' || c = '\r' || c = ' '

/-- Step 1 of `_clean_text`: `text.replace("\x00", " ")`. -/
def replaceNul (l : PyStr) : PyStr :=
  l.map fun c => if c = '\x00' then ' ' else c

/-- Step 2 of `_clean_text`: `re.sub(r"[\t\r ]+", " ", text)` as a left-to-right
scan.  The flag records whether the previous character was in the class, so a
maximal run emits exactly one space. -/
def collapseHWSAux : Bool → PyStr → PyStr
  | _, [] => []
  | inRun, c :: cs =>
    if isHWS c then
      (if inRun then collapseHWSAux true cs else ' ' :: collapseHWSAux true cs)
    else c :: collapseHWSAux false cs

def collapseHWS (l : PyStr) : PyStr := collapseHWSAux false l

/-- Step 3 of `_clean_text`: `re.sub(r"\n{3,}", "\n\n", text)` as a scan.  The
counter is the number of newlines already emitted for the current run; once it
reaches 2, further newlines of the run are dropped, so a run of three or more
newlines becomes exactly two. -/
def collapseNLAux : Nat → PyStr → PyStr
  | _, [] => []
  | n, c :: cs =>
    if c = '\n' then
      (if n < 2 then '\n' :: collapseNLAux (n + 1) cs else collapseNLAux n cs)
    else c :: collapseNLAux 0 cs

/-- Model of `_clean_text` (the Text Normalizer): replace NUL with a space,
collapse horizontal-whitespace runs to one space, collapse runs of three or
more newlines to two, then strip. -/
def clean_text (l : PyStr) : PyStr :=
  pyStrip (collapseNLAux 0 (collapseHWS (replaceNul l)))

/-- A Python exception, reduced to what the code observes: the type's
`__name__` and the `str()` of the exception. -/
structure PyExc where
  name : PyStr
  msg : PyStr
deriving DecidableEq

/-- Model of `_safe_str`: `f"{type(exc).__name__}: {exc}"[:4000]`. -/
def safe_str (e : PyExc) : PyStr :=
  (e.name ++ (": ".data) ++ e.msg).take 4000

/-- Direct text assembled by `extract_pdf_text` from the per-page pypdf
results: strip each page text, keep the non-empty ones, join with a blank
line, strip the result.  A parse failure of the whole PDF (the `except`
branch) yields the empty string. -/
def directText (dp : Except PyExc (List PyStr)) : PyStr :=
  match dp with
  | .error _ => []
  | .ok pages =>
      pyStrip (List.intercalate ['\n', '\n'] ((pages.map pyStrip).filter (· ≠ [])))

/-- Model of `extract_pdf_text` (the Extraction Policy).  `dp` is the injected
outcome of the pypdf per-page extraction (`page.extract_text() or ""` per
page, or the exception); `ocrText` is the injected return value of
`ocr_pdf_text`; `threshold` is `ocr_threshold_chars` (a Python `int`).
Returns `(text, used_ocr)`. -/
def extract_pdf_text (dp : Except PyExc (List PyStr)) (ocrText : PyStr)
    (threshold : Int) : PyStr × Bool :=
  let extracted := directText dp
  if threshold ≤ (extracted.length : Int) then
    (clean_text extracted, false)
  else
    let o := pyStrip ocrText
    if o ≠ [] then (clean_text o, true)
    else (clean_text extracted, true)


/-- A parsed JSON value, as produced by Python's `json.loads`.  Numbers keep
their source literal: no claim depends on numeric values, and this avoids
committing to floating-point semantics. -/
inductive JValue where
  | str (s : PyStr)
  | num (lit : PyStr)
  | bool (b : Bool)
  | null
  | arr (xs : List JValue)
  | obj (fields : List (PyStr × JValue))

/-- JSON whitespace accepted by `json.loads` between tokens. -/
def jsonWS (c : Char) : Bool := c = ' ' || c = '\t' || c = '\n' || c = '\r'

def hexDigit? (c : Char) : Option Nat :=
  if '0' ≤ c ∧ c ≤ '9' then some (c.toNat - '0'.toNat)
  else if 'a' ≤ c ∧ c ≤ 'f' then some (c.toNat - 'a'.toNat + 10)
  else if 'A' ≤ c ∧ c ≤ 'F' then some (c.toNat - 'A'.toNat + 10)
  else none

def escChar? (c : Char) : Option Char :=
  if c = '"' then some '"'
  else if c = '\\' then some '\\'
  else if c = '/' then some '/'
  else if c = 'b' then some '\x08'
  else if c = 'f' then some '\x0c'
  else if c = 'n' then some '\n'
  else if c = 'r' then some '\r'
  else if c = 't' then some '\t'
  else none

/-- Body of a JSON string after the opening quote: returns the decoded
characters and the input after the closing quote.  Unescaped control
characters are rejected (`json.loads` is strict).  Lone `\u` escapes are
decoded naively; surrogate pairing is irrelevant to every claim. -/
def parseStrBody : Nat → PyStr → Option (PyStr × PyStr)
  | 0, _ => none
  | _ + 1, [] => none
  | fuel + 1, c :: cs =>
    if c = '"' then some ([], cs)
    else if c = '\\' then
      match cs with
      | 'u' :: a :: b :: c2 :: d :: cs2 =>
        match hexDigit? a, hexDigit? b, hexDigit? c2, hexDigit? d with
        | some ha, some hb, some hc, some hd =>
          match parseStrBody fuel cs2 with
          | some (s, rest) =>
            some (Char.ofNat (ha * 4096 + hb * 256 + hc * 16 + hd) :: s, rest)
          | none => none
        | _, _, _, _ => none
      | e :: cs2 =>
        match escChar? e with
        | some ec =>
          match parseStrBody fuel cs2 with
          | some (s, rest) => some (ec :: s, rest)
          | none => none
        | none => none
      | [] => none
    else if c.toNat < 0x20 then none
    else
      match parseStrBody fuel cs with
      | some (s, rest) => some (c :: s, rest)
      | none => none

def isDigitCh (c : Char) : Bool := '0' ≤ c && c ≤ '9'

/-- Match a literal keyword, returning the rest of the input. -/
def takeLit : PyStr → PyStr → Option PyStr
  | [], l => some l
  | p :: ps, c :: cs => if c = p then takeLit ps cs else none
  | _ :: _, [] => none

/-- A JSON number literal (returned as raw text) and the remaining input.
Follows the JSON grammar: optional minus, `0` or a nonzero-led digit run,
optional fraction, optional exponent.  A malformed fraction/exponent is left
unconsumed, which makes the enclosing parse fail exactly as `json.loads`
does. -/
def parseNumLit (l : PyStr) : Option (PyStr × PyStr) :=
  let (neg, l1) :=
    match l with
    | '-' :: t => (['-'], t)
    | _ => (([] : PyStr), l)
  match l1 with
  | [] => none
  | c :: _ =>
    if !isDigitCh c then none
    else
      let intPart := l1.takeWhile isDigitCh
      let rest1 := l1.dropWhile isDigitCh
      if intPart.length > 1 ∧ intPart.head? = some '0' then none
      else
        let (fracPart, rest2) :=
          match rest1 with
          | '.' :: t =>
            let ds := t.takeWhile isDigitCh
            if ds = [] then (([] : PyStr), rest1)
            else ('.' :: ds, t.dropWhile isDigitCh)
          | _ => (([] : PyStr), rest1)
        let (expPart, rest3) :=
          match rest2 with
          | e :: t =>
            if e = 'e' ∨ e = 'E' then
              let (sgn, t2) :=
                match t with
                | s :: ts => if s = '+' ∨ s = '-' then ([s], ts) else (([] : PyStr), s :: ts)
                | [] => (([] : PyStr), ([] : PyStr))
              let ds := t2.takeWhile isDigitCh
              if ds = [] then (([] : PyStr), rest2)
              else (e :: (sgn ++ ds), t2.dropWhile isDigitCh)
            else (([] : PyStr), rest2)
          | [] => (([] : PyStr), rest2)
        some (neg ++ intPart ++ fracPart ++ expPart, rest3)

mutual

/-- One JSON value and the remaining input.  `fuel` only bounds recursion
depth; `jsonParse` supplies more than any input can consume. -/
def parseVal : Nat → PyStr → Option (JValue × PyStr)
  | 0, _ => none
  | fuel + 1, l =>
    match l.dropWhile jsonWS with
    | [] => none
    | c :: cs =>
      if c = '\x7b' then parseObjRest fuel cs
      else if c = '[' then parseArrRest fuel cs
      else if c = '"' then
        match parseStrBody (cs.length + 1) cs with
        | some (s, rest) => some (.str s, rest)
        | none => none
      else if c = 't' then
        match takeLit "rue".data cs with
        | some rest => some (.bool true, rest)
        | none => none
      else if c = 'f' then
        match takeLit "alse".data cs with
        | some rest => some (.bool false, rest)
        | none => none
      else if c = 'n' then
        match takeLit "ull".data cs with
        | some rest => some (.null, rest)
        | none => none
      else if c = 'N' then
        match takeLit "aN".data cs with
        | some rest => some (.num "NaN".data, rest)
        | none => none
      else if c = 'I' then
        match takeLit "nfinity".data cs with
        | some rest => some (.num "Infinity".data, rest)
        | none => none
      else if c = '-' then
        match takeLit "Infinity".data cs with
        | some rest => some (.num "-Infinity".data, rest)
        | none =>
          match parseNumLit (c :: cs) with
          | some (lit, rest) => some (.num lit, rest)
          | none => none
      else
        match parseNumLit (c :: cs) with
        | some (lit, rest) => some (.num lit, rest)
        | none => none

/-- Continuation after the opening brace of an object. -/
def parseObjRest : Nat → PyStr → Option (JValue × PyStr)
  | 0, _ => none
  | fuel + 1, l =>
    match l.dropWhile jsonWS with
    | '\x7d' :: rest => some (.obj [], rest)
    | _ =>
      match parseMembers fuel l with
      | some (ms, rest) => some (.obj ms, rest)
      | none => none

/-- One or more `"key": value` members followed by a closing brace. -/
def parseMembers : Nat → PyStr → Option (List (PyStr × JValue) × PyStr)
  | 0, _ => none
  | fuel + 1, l =>
    match l.dropWhile jsonWS with
    | '"' :: cs =>
      match parseStrBody (cs.length + 1) cs with
      | some (k, rest) =>
        match rest.dropWhile jsonWS with
        | ':' :: rest2 =>
          match parseVal fuel rest2 with
          | some (v, rest3) =>
            match rest3.dropWhile jsonWS with
            | ',' :: rest4 =>
              match parseMembers fuel rest4 with
              | some (ms, rest5) => some ((k, v) :: ms, rest5)
              | none => none
            | '\x7d' :: rest4 => some ([(k, v)], rest4)
            | _ => none
          | none => none
        | _ => none
      | none => none
    | _ => none

/-- Continuation after the opening bracket of an array. -/
def parseArrRest : Nat → PyStr → Option (JValue × PyStr)
  | 0, _ => none
  | fuel + 1, l =>
    match l.dropWhile jsonWS with
    | ']' :: rest => some (.arr [], rest)
    | _ =>
      match parseElems fuel l with
      | some (xs, rest) => some (.arr xs, rest)
      | none => none

/-- One or more array elements followed by `]`. -/
def parseElems : Nat → PyStr → Option (List JValue × PyStr)
  | 0, _ => none
  | fuel + 1, l =>
    match parseVal fuel l with
    | some (v, rest) =>
      match rest.dropWhile jsonWS with
      | ',' :: rest2 =>
        match parseElems fuel rest2 with
        | some (xs, rest3) => some (v :: xs, rest3)
        | none => none
      | ']' :: rest2 => some ([v], rest2)
      | _ => none
    | none => none

end

/-- Model of Python's `json.loads`: parse one JSON document and require only
whitespace to remain. -/
def jsonParse (l : PyStr) : Option JValue :=
  match parseVal (3 * l.length + 8) l with
  | some (v, rest) => if rest.dropWhile jsonWS = [] then some v else none
  | none => none

/-- Model of `_extract_json_object`: `re.search` of an opening brace, then
anything, then a closing brace (greedy) matches from the first opening brace
to the last closing brace, and the match is fed to `json.loads`, with any
exception turned into `None`.  If the first opening brace has no closing
brace after it, no later one has either, so there is no match. -/
def extract_json_object (text : PyStr) : Option JValue :=
  let tl := text.dropWhile (fun c => c ≠ '\x7b')
  match tl with
  | [] => none
  | _ :: _ =>
    let upto := (tl.reverse.dropWhile (fun c => c ≠ '\x7d')).reverse
    match upto with
    | [] => none
    | _ :: _ => jsonParse upto

/-- One row of the report (`AuditRow` dataclass).  The finding and evidence
are whatever Python object `dict.get` returned, hence `JValue`. -/
structure AuditRow where
  filename : PyStr
  audit_finding : JValue
  evidence : JValue

/-- Lookup in the dict built by `json.loads` from an object's members: with
duplicate keys the last occurrence wins. -/
def jGet (fields : List (PyStr × JValue)) (k : PyStr) : Option JValue :=
  ((fields.filter fun p => p.1 == k).getLast?).map Prod.snd

def errMarker : PyStr := "AI PROCESSING ERROR".data

def findingDefault : PyStr := "Error parsing finding".data

def evidenceDefault : PyStr := "EVIDENCE NOT FOUND".data

def findingKey : PyStr := "audit_finding".data

def evidenceKey : PyStr := "evidence".data

/-- Python type name of a parsed JSON value, as it appears in the
`AttributeError` raised by `parsed.get` when `parsed` is not a dict. -/
def pyTypeName : JValue → PyStr
  | .str _ => "str".data
  | .bool _ => "bool".data
  | .null => "NoneType".data
  | .arr _ => "list".data
  | .obj _ => "dict".data
  | .num lit =>
    if lit.contains '.' || lit.contains 'e' || lit.contains 'E' ||
        lit = "NaN".data || lit = "Infinity".data || lit = "-Infinity".data then
      "float".data
    else "int".data

def attrErrMsg (v : JValue) : PyStr :=
  "'".data ++ pyTypeName v ++ "' object has no attribute 'get'".data

/-- Model of `ask_gemini` (the Evidence Synthesizer).  `outcome` is the
injected result of `model.generate_content(...).text`: either the raised
exception or the response text.  `decodeMsg` is the message text of the
`json.JSONDecodeError` CPython would raise on this response (its content is
environment detail; no theorem depends on it).  Note the `try` block parses
`resp.text` with `json.loads` directly — `_extract_json_object` is never
called — and any exception becomes the fixed error row.  The handling of the
parse result is split into `respRow` so proofs can rewrite the scrutinee. -/
def respRow (parsed : Option JValue) (decodeMsg : PyStr) : AuditRow :=
  match parsed with
  | none => ⟨[], .str errMarker, .str (safe_str ⟨"JSONDecodeError".data, decodeMsg⟩)⟩
  | some (.obj fields) =>
    ⟨[], (jGet fields findingKey).getD (.str findingDefault),
      (jGet fields evidenceKey).getD (.str evidenceDefault)⟩
  | some v => ⟨[], .str errMarker, .str (safe_str ⟨"AttributeError".data, attrErrMsg v⟩)⟩

def ask_gemini (outcome : Except PyExc PyStr) (decodeMsg : PyStr) : AuditRow :=
  match outcome with
  | .error e => ⟨[], .str errMarker, .str (safe_str e)⟩
  | .ok text => respRow (jsonParse text) decodeMsg

/-- A hosted model as seen through `genai.list_models()`: `getattr` with a
default is modelled by `Option`, and `... or []` maps a missing or falsy
attribute to the empty list. -/
structure GModel where
  name : Option PyStr
  methods : Option (List PyStr)

def autoSentinel : PyStr := "Auto (list models)".data

def fallbackModel : PyStr := "gemini-1.5-flash".data

def supportsGen (m : GModel) : Bool :=
  (m.methods.getD []).contains "generateContent".data

/-- Model of `choose_model`.  `listing` is the injected outcome of
`genai.list_models()` (the exception covers a failure at any point of the
iteration). -/
def choose_model (preferred : PyStr) (listing : Except PyExc (List GModel)) : PyStr :=
  if preferred ≠ autoSentinel then preferred
  else
    match listing with
    | .error _ => fallbackModel
    | .ok ms =>
      match ms.find? supportsGen with
      | some m => m.name.getD fallbackModel
      | none => fallbackModel

/-- Per-document inputs to one iteration of the loop in `main`.
`extractOutcome` is the outcome of `f.getvalue()` plus `extract_pdf_text`
(whose OCR stage can raise); `geminiOutcome` and `decodeMsg` feed
`ask_gemini`. -/
structure DocInput where
  name : PyStr
  extractOutcome : Except PyExc (PyStr × Bool)
  geminiOutcome : Except PyExc PyStr
  decodeMsg : PyStr

def noTextMsg : PyStr :=
  "No text could be extracted from the PDF (selectable text + OCR both returned empty).".data

/-- One iteration of the document loop in `main`: any exception inside the
`try` becomes an `ERROR` row for this document; empty extracted text raises
`RuntimeError(noTextMsg)`; otherwise `ask_gemini`'s row gets the filename. -/
def processDoc (d : DocInput) : AuditRow :=
  match d.extractOutcome with
  | .error e => ⟨d.name, .str "ERROR".data, .str (safe_str e)⟩
  | .ok (docText, _) =>
    if docText = [] then
      ⟨d.name, .str "ERROR".data, .str (safe_str ⟨"RuntimeError".data, noTextMsg⟩)⟩
    else
      let r := ask_gemini d.geminiOutcome d.decodeMsg
      ⟨d.name, r.audit_finding, r.evidence⟩

/-- The rows accumulated by `main` over the uploaded files, in input order. -/
def mainRows (docs : List DocInput) : List AuditRow := docs.map processDoc

/-- No NUL character occurs in the string. -/
def NoNul (l : PyStr) : Prop := ∀ c ∈ l, c ≠ '\x00'

/-- No tab and no carriage return occurs in the string. -/
def NoTabCR (l : PyStr) : Prop := ∀ c ∈ l, c ≠ '\t' ∧ c ≠ '\r'

/-- No two adjacent characters are both spaces. -/
def NoDblSpace (l : PyStr) : Prop := l.Chain' fun a b => ¬(a = ' ' ∧ b = ' ')

/-- Checker aligned with `collapseNLAux`: `true` iff the string, entered with
`n` newlines already pending, contains no run of three or more newlines. -/
def nt3Aux : Nat → PyStr → Bool
  | _, [] => true
  | n, c :: cs =>
    if c = '\n' then (if n < 2 then nt3Aux (n + 1) cs else false)
    else nt3Aux 0 cs

/-- Concrete documents for the `mainRows_report` witness: one that succeeds
and one whose processing raises. -/
def docOkW : DocInput := ⟨"a.pdf".data, .ok ("text".data, false), .ok "\x7b\x7d".data, []⟩

def docErrW : DocInput := ⟨"b.pdf".data, .error ⟨"RuntimeError".data, noTextMsg⟩, .ok [], []⟩

/-- C1 (counterexample): the threshold test uses the raw, pre-normalization
length, not the normalized length.  For the single page `"a\n\n\nb"` the raw
direct text has length 5, so threshold 5 accepts it without OCR
(`used_ocr = false`), yet its normalized form `"a\n\nb"` has length 4 < 5, so
the claim predicts OCR. -/
theorem extract_threshold_normalized_cex :
    (extract_pdf_text (.ok ["a\n\n\nb".data]) [] 5).2 = false ∧
    (clean_text (directText (.ok ["a\n\n\nb".data]))).length < 5 := by
  exact ⟨by decide, by decide⟩

/-- C1 (amended): for every PDF input and threshold `T`, the Extraction
Policy accepts the direct-extraction result without invoking OCR exactly when
the length of the raw (stripped, blank-line-joined, not yet normalized)
direct text is ≥ `T`; in that case it returns the normalized direct text with
`used_ocr = false`.  Direct text of raw length exactly `T` is accepted,
raw length `T − 1` triggers OCR, and for `T = 0` direct extraction is always
accepted and OCR never runs. -/
theorem extract_threshold_raw_length (dp : Except PyExc (List PyStr))
    (ocr : PyStr) (T : Int) :
    ((extract_pdf_text dp ocr T).2 = false ↔ T ≤ ((directText dp).length : Int)) ∧
    ((extract_pdf_text dp ocr 0).2 = false) ∧
    (T ≤ ((directText dp).length : Int) →
      extract_pdf_text dp ocr T = (clean_text (directText dp), false)) := by
  unfold extract_pdf_text
  refine ⟨?_, ?_, fun h => by simp [h]⟩
  · by_cases h : T ≤ ((directText dp).length : Int)
    · simp [h]
    · rw [if_neg h]
      simp only [h, iff_false]
      split <;> simp
  · rw [if_pos (Int.natCast_nonneg _)]

/-- Witness for `extract_threshold_raw_length` at a concrete document of raw
length 5 and threshold 5. -/
theorem extract_threshold_raw_length_witness :
    (5 : Int) ≤ ((directText (.ok ["hello".data])).length : Int) ∧
    extract_pdf_text (.ok ["hello".data]) [] 5 =
      (clean_text (directText (.ok ["hello".data])), false) :=
  ⟨by decide, (extract_threshold_raw_length (.ok ["hello".data]) [] 5).2.2 (by decide)⟩

/-- C7: if direct extraction raises, the Extraction Policy treats the direct
output as the empty string and does not propagate the failure: the result (a
plain pair, never an exception) is the same as for a PDF with no extractable
pages, so the threshold check and the OCR fallback still run. -/
theorem extract_direct_failure_degrades (e : PyExc) (ocr : PyStr) (T : Int) :
    directText (.error e) = [] ∧
    extract_pdf_text (.error e) ocr T = extract_pdf_text (.ok []) ocr T :=
  ⟨rfl, rfl⟩

/-- C8: when the direct text falls below the threshold, a non-empty trimmed
OCR output is returned normalized with `used_ocr = true`; an empty trimmed
OCR output falls back to the (possibly empty) normalized direct text, still
with `used_ocr = true`, so a document unextractable by both paths yields an
empty text result. -/
theorem extract_ocr_fallback (dp : Except PyExc (List PyStr)) (ocr : PyStr)
    (T : Int) (h : ((directText dp).length : Int) < T) :
    (pyStrip ocr ≠ [] → extract_pdf_text dp ocr T = (clean_text (pyStrip ocr), true)) ∧
    (pyStrip ocr = [] → extract_pdf_text dp ocr T = (clean_text (directText dp), true)) ∧
    (directText dp = [] → pyStrip ocr = [] → extract_pdf_text dp ocr T = ([], true)) := by
  have hn : ¬ T ≤ ((directText dp).length : Int) := not_le.mpr h
  refine ⟨fun ho => ?_, fun ho => ?_, fun hd ho => ?_⟩
  · unfold extract_pdf_text
    rw [if_neg hn, if_pos ho]
  · unfold extract_pdf_text
    rw [if_neg hn, if_neg (by simp [ho])]
  · unfold extract_pdf_text
    rw [if_neg hn, if_neg (by simp [ho]), hd]
    rfl

/-- Witness for `extract_ocr_fallback`: a below-threshold document with OCR
text, and one where both paths are empty. -/
theorem extract_ocr_fallback_witness :
    (((directText (.ok ["hi".data])).length : Int) < 9 ∧
      extract_pdf_text (.ok ["hi".data]) " ocr ".data 9 =
        (clean_text (pyStrip " ocr ".data), true)) ∧
    (((directText (Except.ok ([] : List PyStr))).length : Int) < 1 ∧
      extract_pdf_text (Except.ok ([] : List PyStr)) [] 1 = ([], true)) :=
  ⟨⟨by decide, (extract_ocr_fallback (.ok ["hi".data]) " ocr ".data 9 (by decide)).1
      (by decide)⟩,
    ⟨by decide, (extract_ocr_fallback (Except.ok ([] : List PyStr)) [] 1 (by decide)).2.2
      rfl rfl⟩⟩

/-- C2 (counterexample): the parse-success defaults are the fixed strings
`"Error parsing finding"` and `"EVIDENCE NOT FOUND"`, not the raw response
text and the empty string.  On the response `"{}"` (a valid JSON object with
both fields missing) the code's row carries both fixed defaults, while the
claim predicts finding = `"{}"` and evidence = `""`. -/
theorem ask_gemini_defaults_cex :
    ask_gemini (.ok "\x7b\x7d".data) [] = ⟨[], .str findingDefault, .str evidenceDefault⟩ ∧
    (ask_gemini (.ok "\x7b\x7d".data) []).audit_finding ≠ JValue.str "\x7b\x7d".data ∧
    (ask_gemini (.ok "\x7b\x7d".data) []).evidence ≠ JValue.str [] := by
  refine ⟨rfl, fun h => ?_, fun h => ?_⟩
  · rw [show (ask_gemini (.ok "\x7b\x7d".data) []).audit_finding =
      JValue.str findingDefault from rfl] at h
    injection h with h'
    exact absurd h' (by decide)
  · rw [show (ask_gemini (.ok "\x7b\x7d".data) []).evidence =
      JValue.str evidenceDefault from rfl] at h
    injection h with h'
    exact absurd h' (by decide)

/-- C2 (amended): for every model response that parses as a JSON object, the
row's `audit_finding` is the object's `audit_finding` value when the key is
present (an empty-string value included) and the fixed default
`"Error parsing finding"` when it is missing, and its `evidence` is the
object's `evidence` value when present and the fixed default
`"EVIDENCE NOT FOUND"` when missing; the raw response text is never
substituted.  (A response parsing to JSON that is not an object instead
raises inside the `try` and yields the error row, see
`ask_gemini_failure_contained`.) -/
theorem ask_gemini_parsed_object (t dm : PyStr) (fields : List (PyStr × JValue))
    (h : jsonParse t = some (.obj fields)) :
    ask_gemini (.ok t) dm =
      ⟨[], (jGet fields findingKey).getD (.str findingDefault),
        (jGet fields evidenceKey).getD (.str evidenceDefault)⟩ := by
  show respRow (jsonParse t) dm = _
  rw [h]
  rfl

/-- Witness for `ask_gemini_parsed_object` on a response carrying only a
finding: the finding is taken from the object, the evidence defaults. -/
theorem ask_gemini_parsed_object_witness :
    jsonParse "\x7b\"audit_finding\": \"Met\"\x7d".data =
      some (.obj [(findingKey, .str "Met".data)]) ∧
    ask_gemini (.ok "\x7b\"audit_finding\": \"Met\"\x7d".data) [] =
      ⟨[], .str "Met".data, .str evidenceDefault⟩ :=
  ⟨rfl, ask_gemini_parsed_object _ [] [(findingKey, .str "Met".data)] rfl⟩

/-- C3 (counterexample): a response that is not valid JSON but contains an
embedded JSON object is treated as a parse failure — the row carries the
fixed error marker — even though `_extract_json_object` would have recovered
the object; `ask_gemini` never calls it. -/
theorem ask_gemini_recovery_cex :
    (ask_gemini
      (.ok "Note: \x7b\"audit_finding\": \"Met\", \"evidence\": \"E\"\x7d done.".data)
      []).audit_finding = .str errMarker ∧
    extract_json_object
        "Note: \x7b\"audit_finding\": \"Met\", \"evidence\": \"E\"\x7d done.".data =
      some (.obj [(findingKey, .str "Met".data), (evidenceKey, .str "E".data)]) :=
  ⟨rfl, rfl⟩

/-- C3 (amended): the response handler does not recover JSON embedded in
prose.  Any response text `json.loads` rejects yields the fixed error row —
`_extract_json_object` (which does locate the first-`{`-to-last-`}` span and
parse it) exists in the code but is never invoked by `ask_gemini`. -/
theorem ask_gemini_no_recovery (t dm : PyStr) (h : jsonParse t = none) :
    ask_gemini (.ok t) dm =
      ⟨[], .str errMarker, .str (safe_str ⟨"JSONDecodeError".data, dm⟩)⟩ := by
  show respRow (jsonParse t) dm = _
  rw [h]
  rfl

/-- Witness for `ask_gemini_no_recovery` at a concrete non-JSON response. -/
theorem ask_gemini_no_recovery_witness :
    jsonParse "not json".data = none ∧
    ask_gemini (.ok "not json".data) "msg".data =
      ⟨[], .str errMarker, .str (safe_str ⟨"JSONDecodeError".data, "msg".data⟩)⟩ :=
  ⟨rfl, ask_gemini_no_recovery _ _ rfl⟩

/-- C5: every failure of model invocation or response handling is converted
into a row — `ask_gemini` is a total function into `AuditRow`, so nothing
propagates — whose finding is the fixed marker `"AI PROCESSING ERROR"` and
whose evidence is `_safe_str` of the exception: a non-empty diagnostic string
of at most 4000 characters.  The three failure shapes are a raised exception
(network error etc.), a response `json.loads` rejects, and a response parsing
to a non-object (whose `.get` raises `AttributeError`). -/
theorem ask_gemini_failure_contained :
    (∀ e dm, ask_gemini (.error e) dm = ⟨[], .str errMarker, .str (safe_str e)⟩) ∧
    (∀ t dm, jsonParse t = none →
      ask_gemini (.ok t) dm =
        ⟨[], .str errMarker, .str (safe_str ⟨"JSONDecodeError".data, dm⟩)⟩) ∧
    (∀ t dm v, jsonParse t = some v → (∀ fs, v ≠ JValue.obj fs) →
      ask_gemini (.ok t) dm =
        ⟨[], .str errMarker, .str (safe_str ⟨"AttributeError".data, attrErrMsg v⟩)⟩) ∧
    (∀ e, safe_str e ≠ [] ∧ (safe_str e).length ≤ 4000) := by
  refine ⟨fun e dm => rfl,
    fun t dm h => by show respRow (jsonParse t) dm = _; rw [h]; rfl,
    fun t dm v h hv => ?_, fun e => ⟨?_, ?_⟩⟩
  · show respRow (jsonParse t) dm = _
    rw [h]
    cases v with
    | obj fs => exact absurd rfl (hv fs)
    | str s => rfl
    | num lit => rfl
    | bool b => rfl
    | null => rfl
    | arr xs => rfl
  · unfold safe_str
    intro hnil
    rcases List.take_eq_nil_iff.mp hnil with h4 | happ
    · exact absurd h4 (by decide)
    · have hlen : (e.name ++ (": ".data) ++ e.msg).length =
          e.name.length + 2 + e.msg.length := by
        simp [List.length_append]
        omega
      rw [happ] at hlen
      simp at hlen
      omega
  · unfold safe_str
    rw [List.length_take]
    exact min_le_left _ _

/-- Witness for `ask_gemini_failure_contained`: a raised exception, a
non-JSON response, and a JSON-but-not-object response, each yielding the
fixed error row with bounded non-empty evidence. -/
theorem ask_gemini_failure_contained_witness :
    (ask_gemini (.error ⟨"ValueError".data, "boom".data⟩) [] =
      ⟨[], .str errMarker, .str (safe_str ⟨"ValueError".data, "boom".data⟩)⟩) ∧
    (ask_gemini (.ok "oops".data) "m".data =
      ⟨[], .str errMarker, .str (safe_str ⟨"JSONDecodeError".data, "m".data⟩)⟩) ∧
    (ask_gemini (.ok "true".data) [] =
      ⟨[], .str errMarker,
        .str (safe_str ⟨"AttributeError".data, attrErrMsg (.bool true)⟩)⟩) ∧
    (safe_str ⟨"ValueError".data, "boom".data⟩ ≠ [] ∧
      (safe_str ⟨"ValueError".data, "boom".data⟩).length ≤ 4000) :=
  ⟨ask_gemini_failure_contained.1 _ _,
    ask_gemini_failure_contained.2.1 _ _ rfl,
    ask_gemini_failure_contained.2.2.1 _ _ (.bool true) rfl
      (fun _fs h => JValue.noConfusion h),
    ask_gemini_failure_contained.2.2.2 _⟩

/-- C6: the Report has exactly one row per input document, in input order
(`(mainRows docs)[i]?` is `processDoc` of `docs[i]?`), and a document whose
processing raises contributes a row with finding `"ERROR"` and evidence the
`"ExceptionType: message"` string truncated to at most 4000 characters,
instead of aborting the batch. -/
theorem mainRows_report (docs : List DocInput) :
    ((mainRows docs).length = docs.length) ∧
    (∀ i : Nat, (mainRows docs)[i]? = (docs[i]?).map processDoc) ∧
    (∀ d e, d.extractOutcome = .error e →
      processDoc d = ⟨d.name, .str "ERROR".data, .str (safe_str e)⟩) ∧
    (∀ e, safe_str e = (e.name ++ (": ".data) ++ e.msg).take 4000 ∧
      (safe_str e).length ≤ 4000) := by
  refine ⟨List.length_map _ _, fun i => List.getElem?_map _ _ _,
    fun d e h => ?_, fun e => ⟨rfl, ?_⟩⟩
  · unfold processDoc
    rw [h]
  · unfold safe_str
    rw [List.length_take]
    exact min_le_left _ _

/-- Witness for `mainRows_report` on a two-document batch whose second
document fails: two rows, in order, the second an `ERROR` row. -/
theorem mainRows_report_witness :
    ((mainRows [docOkW, docErrW]).length = 2) ∧
    ((mainRows [docOkW, docErrW])[1]? = some (processDoc docErrW)) ∧
    (processDoc docErrW =
      ⟨"b.pdf".data, .str "ERROR".data, .str (safe_str ⟨"RuntimeError".data, noTextMsg⟩)⟩) :=
  ⟨(mainRows_report [docOkW, docErrW]).1,
    by rw [(mainRows_report [docOkW, docErrW]).2.1 1]; rfl,
    (mainRows_report [docOkW, docErrW]).2.2.1 docErrW ⟨"RuntimeError".data, noTextMsg⟩ rfl⟩

/-- C9: `choose_model` returns a non-sentinel preferred identifier unchanged;
for the auto-select sentinel it returns the name of the first listed model
supporting `generateContent`, and the hardcoded fallback when the listing
query raises or finds no such model (or the found model has no name
attribute). -/
theorem choose_model_spec :
    (∀ (p : PyStr) (listing : Except PyExc (List GModel)),
      p ≠ autoSentinel → choose_model p listing = p) ∧
    (∀ e, choose_model autoSentinel (.error e) = fallbackModel) ∧
    (∀ ms m nm, ms.find? supportsGen = some m → m.name = some nm →
      choose_model autoSentinel (.ok ms) = nm) ∧
    (∀ ms, ms.find? supportsGen = none →
      choose_model autoSentinel (.ok ms) = fallbackModel) := by
  refine ⟨fun p listing hp => by simp [choose_model, hp], fun e => by simp [choose_model],
    fun ms m nm hf hn => ?_, fun ms hf => by simp [choose_model, hf]⟩
  simp [choose_model, hf, hn]

/-- Witness for `choose_model_spec`: a non-sentinel choice passes through, a
listing failure and an unsupported listing fall back, and a supporting model
is picked by name. -/
theorem choose_model_spec_witness :
    (choose_model "gemini-pro".data (.ok []) = "gemini-pro".data) ∧
    (choose_model autoSentinel (.error ⟨"E".data, "x".data⟩) = fallbackModel) ∧
    (choose_model autoSentinel
      (.ok [⟨some "m0".data, none⟩,
            ⟨some "models/gemini-1.5-pro".data, some ["generateContent".data]⟩]) =
      "models/gemini-1.5-pro".data) ∧
    (choose_model autoSentinel (.ok [⟨some "m0".data, none⟩]) = fallbackModel) :=
  ⟨choose_model_spec.1 _ _ (by decide),
    choose_model_spec.2.1 _,
    choose_model_spec.2.2.1 _
      ⟨some "models/gemini-1.5-pro".data, some ["generateContent".data]⟩ _ rfl rfl,
    choose_model_spec.2.2.2 _ rfl⟩

/-- Every character of `replaceNul l` differs from NUL. -/
theorem noNul_replaceNul (l : PyStr) : NoNul (replaceNul l) := by
  intro c hc
  rcases List.mem_map.mp hc with ⟨a, _, ha⟩
  by_cases h : a = '\x00' <;> simp [h] at ha <;> subst ha <;> simp_all

/-- If a string has no NUL, replacing NUL with a space is the identity. -/
theorem replaceNul_eq_self {l : PyStr} (h : NoNul l) : replaceNul l = l := by
  unfold replaceNul
  induction l with
  | nil => rfl
  | cons x xs ih =>
    simp only [List.map_cons, List.cons.injEq]
    constructor
    · simp [h x (List.mem_cons_self _ _)]
    · exact ih fun c hc => h c (List.mem_cons_of_mem _ hc)

/-- Characters emitted by the horizontal-whitespace collapse are spaces or
characters of the input. -/
theorem mem_collapseHWSAux {c : Char} (b : Bool) (l : PyStr)
    (h : c ∈ collapseHWSAux b l) : c = ' ' ∨ c ∈ l := by
  induction l generalizing b with
  | nil => simp [collapseHWSAux] at h
  | cons x xs ih =>
    by_cases hx : isHWS x
    · cases b with
      | false =>
        simp only [collapseHWSAux, hx, if_true, Bool.false_eq_true, if_false,
          List.mem_cons] at h
        rcases h with h | h
        · exact Or.inl h
        · rcases ih true h with h' | h'
          · exact Or.inl h'
          · exact Or.inr (List.mem_cons_of_mem _ h')
      | true =>
        simp only [collapseHWSAux, hx, if_true] at h
        rcases ih true h with h' | h'
        · exact Or.inl h'
        · exact Or.inr (List.mem_cons_of_mem _ h')
    · simp only [collapseHWSAux, hx, Bool.false_eq_true, if_false,
        List.mem_cons] at h
      rcases h with h | h
      · exact Or.inr (h ▸ List.mem_cons_self _ _)
      · rcases ih false h with h' | h'
        · exact Or.inl h'
        · exact Or.inr (List.mem_cons_of_mem _ h')

/-- Characters emitted by the newline collapse are newlines or characters of
the input. -/
theorem mem_collapseNLAux {c : Char} (n : Nat) (l : PyStr)
    (h : c ∈ collapseNLAux n l) : c = '\n' ∨ c ∈ l := by
  induction l generalizing n with
  | nil => simp [collapseNLAux] at h
  | cons x xs ih =>
    by_cases hx : x = '\n'
    · by_cases hn : n < 2
      · simp only [collapseNLAux, hx, if_true, hn, List.mem_cons] at h
        rcases h with h | h
        · exact Or.inl h
        · rcases ih (n + 1) h with h' | h'
          · exact Or.inl h'
          · exact Or.inr (List.mem_cons_of_mem _ h')
      · simp only [collapseNLAux, hx, if_true, hn, if_false] at h
        rcases ih n h with h' | h'
        · exact Or.inl h'
        · exact Or.inr (List.mem_cons_of_mem _ h')
    · simp only [collapseNLAux, hx, if_false, List.mem_cons] at h
      rcases h with h | h
      · exact Or.inr (h ▸ List.mem_cons_self _ _)
      · rcases ih 0 h with h' | h'
        · exact Or.inl h'
        · exact Or.inr (List.mem_cons_of_mem _ h')

/-- The horizontal-whitespace collapse never emits a tab or carriage
return. -/
theorem noTabCR_collapseHWSAux (b : Bool) (l : PyStr) :
    NoTabCR (collapseHWSAux b l) := by
  induction l generalizing b with
  | nil => intro c hc; simp [collapseHWSAux] at hc
  | cons x xs ih =>
    intro c hc
    by_cases hx : isHWS x
    · cases b with
      | false =>
        simp only [collapseHWSAux, hx, if_true, Bool.false_eq_true, if_false,
          List.mem_cons] at hc
        rcases hc with hc | hc
        · subst hc; exact ⟨by decide, by decide⟩
        · exact ih true c hc
      | true =>
        simp only [collapseHWSAux, hx, if_true] at hc
        exact ih true c hc
    · simp only [collapseHWSAux, hx, Bool.false_eq_true, if_false,
        List.mem_cons] at hc
      rcases hc with hc | hc
      · subst hc
        refine ⟨fun h => hx ?_, fun h => hx ?_⟩ <;> simp [isHWS, h]
      · exact ih false c hc

/-- In the in-run state the horizontal collapse never emits a leading
space. -/
theorem collapseHWSAux_true_head (l : PyStr) :
    ∀ c ∈ (collapseHWSAux true l).head?, c ≠ ' ' := by
  induction l with
  | nil => simp [collapseHWSAux]
  | cons x xs ih =>
    by_cases hx : isHWS x
    · simpa [collapseHWSAux, hx] using ih
    · intro c hc h
      simp only [collapseHWSAux, hx, Bool.false_eq_true, if_false,
        List.head?_cons, Option.mem_def, Option.some.injEq] at hc
      subst hc
      subst h
      exact hx (by decide)

/-- The output of the horizontal collapse has no two adjacent spaces. -/
theorem noDblSpace_collapseHWSAux (b : Bool) (l : PyStr) :
    NoDblSpace (collapseHWSAux b l) := by
  induction l generalizing b with
  | nil => simp [NoDblSpace, collapseHWSAux]
  | cons x xs ih =>
    by_cases hx : isHWS x
    · cases b with
      | true => simpa [collapseHWSAux, hx] using ih true
      | false =>
        simp only [collapseHWSAux, hx, if_true, Bool.false_eq_true, if_false]
        refine List.chain'_cons'.mpr ⟨fun y hy hcon => ?_, ih true⟩
        exact collapseHWSAux_true_head xs y hy hcon.2
    · simp only [collapseHWSAux, hx, Bool.false_eq_true, if_false]
      refine List.chain'_cons'.mpr ⟨fun y hy hcon => ?_, ih false⟩
      exact hx (by simp [isHWS, hcon.1])

/-- Entering the collapse in the in-run state makes no difference when the
head of the input is not collapsible. -/
theorem collapseHWSAux_true_of_head (l : PyStr)
    (hl : ∀ c ∈ l.head?, isHWS c = false) :
    collapseHWSAux true l = collapseHWSAux false l := by
  cases l with
  | nil => rfl
  | cons d ds =>
    have hd := hl d (by simp)
    simp [collapseHWSAux, hd]

/-- A string with no tab, no carriage return and no double space is a fixed
point of the horizontal collapse. -/
theorem collapseHWSAux_eq_self (l : PyStr) (h1 : NoTabCR l) (h2 : NoDblSpace l) :
    collapseHWSAux false l = l := by
  induction l with
  | nil => rfl
  | cons x xs ih =>
    have h1' : NoTabCR xs := fun c hc => h1 c (List.mem_cons_of_mem _ hc)
    have h2' : NoDblSpace xs := (List.chain'_cons'.mp h2).2
    by_cases hx : isHWS x
    · have hxs : x = ' ' := by
        rcases h1 x (List.mem_cons_self _ _) with ⟨ht, hr⟩
        simp only [isHWS, Bool.or_eq_true, decide_eq_true_eq] at hx
        tauto
      subst hxs
      simp only [collapseHWSAux, if_pos (by decide : isHWS ' ' = true), if_true,
        Bool.false_eq_true, if_false, List.cons.injEq, true_and]
      rw [collapseHWSAux_true_of_head xs ?hh]
      · exact ih h1' h2'
      case hh =>
        intro c hc
        have hns : c ≠ ' ' := by
          have := (List.chain'_cons'.mp h2).1 c hc
          tauto
        rcases h1' c (by cases xs with
          | nil => simp at hc
          | cons d ds =>
            simp only [List.head?_cons, Option.mem_def, Option.some.injEq] at hc
            exact hc ▸ List.mem_cons_self _ _) with ⟨ht, hr⟩
        simp [isHWS, ht, hr, hns]
    · simp only [collapseHWSAux, hx, Bool.false_eq_true, if_false,
        List.cons.injEq, true_and]
      exact ih h1' h2'

/-- Starting in the reset state, the newline collapse preserves the head. -/
theorem collapseNLAux_zero_head (l : PyStr) :
    (collapseNLAux 0 l).head? = l.head? := by
  cases l with
  | nil => rfl
  | cons x xs =>
    by_cases hx : x = '\n'
    · simp [collapseNLAux, hx]
    · simp [collapseNLAux, hx]

/-- The newline collapse preserves freedom from double spaces. -/
theorem noDblSpace_collapseNLAux (n : Nat) (l : PyStr) (h : NoDblSpace l) :
    NoDblSpace (collapseNLAux n l) := by
  induction l generalizing n with
  | nil => simp [NoDblSpace, collapseNLAux]
  | cons x xs ih =>
    have h2' : NoDblSpace xs := (List.chain'_cons'.mp h).2
    by_cases hx : x = '\n'
    · by_cases hn : n < 2
      · simp only [collapseNLAux, hx, if_true, hn]
        refine List.chain'_cons'.mpr ⟨fun y hy hcon => ?_, ih (n + 1) h2'⟩
        exact absurd hcon.1 (by decide)
      · simp only [collapseNLAux, hx, if_true, hn, if_false]
        exact ih n h2'
    · simp only [collapseNLAux, hx, if_false]
      refine List.chain'_cons'.mpr ⟨fun y hy hcon => ?_, ih 0 h2'⟩
      rw [collapseNLAux_zero_head xs] at hy
      exact (List.chain'_cons'.mp h).1 y hy hcon

/-- A string the checker accepts is a fixed point of the newline collapse
entered with the same state. -/
theorem collapseNLAux_eq_self (n : Nat) (l : PyStr) (h : nt3Aux n l = true) :
    collapseNLAux n l = l := by
  induction l generalizing n with
  | nil => rfl
  | cons x xs ih =>
    by_cases hx : x = '\n'
    · by_cases hn : n < 2
      · simp only [nt3Aux, hx, if_true, hn] at h
        simp only [collapseNLAux, hx, if_true, hn, List.cons.injEq, true_and]
        exact ih (n + 1) h
      · simp [nt3Aux, hx, hn] at h
    · simp only [nt3Aux, hx, if_false] at h
      simp only [collapseNLAux, hx, if_false, List.cons.injEq, true_and]
      exact ih 0 h

/-- The checker accepts the output of the newline collapse. -/
theorem nt3Aux_collapseNLAux (n : Nat) (l : PyStr) :
    nt3Aux n (collapseNLAux n l) = true := by
  induction l generalizing n with
  | nil => rfl
  | cons x xs ih =>
    by_cases hx : x = '\n'
    · by_cases hn : n < 2
      · simp only [collapseNLAux, hx, if_true, hn]
        simp only [nt3Aux, if_true, hn]
        exact ih (n + 1)
      · simp only [collapseNLAux, hx, if_true, hn, if_false]
        exact ih n
    · simp only [collapseNLAux, hx, if_false]
      simp only [nt3Aux, hx, if_false]
      exact ih 0

/-- Acceptance by the checker is antitone in the state. -/
theorem nt3Aux_mono (n m : Nat) (l : PyStr) (hnm : n ≤ m)
    (h : nt3Aux m l = true) : nt3Aux n l = true := by
  induction l generalizing n m with
  | nil => rfl
  | cons x xs ih =>
    by_cases hx : x = '\n'
    · by_cases hm : m < 2
      · simp only [nt3Aux, hx, if_true, hm] at h
        simp only [nt3Aux, hx, if_true, Nat.lt_of_le_of_lt hnm hm]
        exact ih (n + 1) (m + 1) (Nat.succ_le_succ hnm) h
      · simp [nt3Aux, hx, hm] at h
    · simp only [nt3Aux, hx, if_false] at h ⊢
      exact h

/-- The checker accepts every left part of an accepted concatenation. -/
theorem nt3Aux_append_left (n : Nat) (a b : PyStr)
    (h : nt3Aux n (a ++ b) = true) : nt3Aux n a = true := by
  induction a generalizing n with
  | nil => rfl
  | cons x xs ih =>
    by_cases hx : x = '\n'
    · by_cases hn : n < 2
      · simp only [List.cons_append, nt3Aux, hx, if_true, hn] at h ⊢
        exact ih (n + 1) h
      · simp [List.cons_append, nt3Aux, hx, hn] at h
    · simp only [List.cons_append, nt3Aux, hx, if_false] at h ⊢
      exact ih 0 h

/-- The checker accepts every right part of an accepted concatenation, from
the reset state. -/
theorem nt3Aux_append_right (n : Nat) (a b : PyStr)
    (h : nt3Aux n (a ++ b) = true) : nt3Aux 0 b = true := by
  induction a generalizing n with
  | nil => exact nt3Aux_mono 0 n b (Nat.zero_le n) h
  | cons x xs ih =>
    by_cases hx : x = '\n'
    · by_cases hn : n < 2
      · simp only [List.cons_append, nt3Aux, hx, if_true, hn] at h
        exact ih (n + 1) h
      · simp [List.cons_append, nt3Aux, hx, hn] at h
    · simp only [List.cons_append, nt3Aux, hx, if_false] at h
      exact ih 0 h

/-- The head that survives `dropWhile` does not satisfy the predicate. -/
theorem dropWhile_head_false (p : Char → Bool) (l : PyStr) :
    ∀ c ∈ (l.dropWhile p).head?, p c = false := by
  induction l with
  | nil => simp
  | cons x xs ih =>
    by_cases hx : p x
    · simpa [List.dropWhile_cons, hx] using ih
    · intro c hc
      simp only [List.dropWhile_cons, hx, Bool.false_eq_true, if_false,
        List.head?_cons, Option.mem_def, Option.some.injEq] at hc
      subst hc
      simpa using hx

/-- Dropping from a list whose head does not satisfy the predicate is the
identity. -/
theorem dropWhile_eq_self_of_head (p : Char → Bool) (l : PyStr)
    (h : ∀ c ∈ l.head?, p c = false) : l.dropWhile p = l := by
  cases l with
  | nil => rfl
  | cons x xs => simp [List.dropWhile_cons, h x (by simp)]

/-- The stripped string is the left part of the front-trimmed string. -/
theorem pyStrip_decomp_inner (l : PyStr) :
    l.dropWhile isPyWS =
      pyStrip l ++ ((l.dropWhile isPyWS).reverse.takeWhile isPyWS).reverse := by
  have h2 := congrArg List.reverse
    (List.takeWhile_append_dropWhile isPyWS (l.dropWhile isPyWS).reverse)
  rw [List.reverse_append, List.reverse_reverse] at h2
  exact h2.symm

/-- The stripped string sits inside the original between two pieces. -/
theorem pyStrip_decomp (l : PyStr) : ∃ s t, s ++ (pyStrip l ++ t) = l := by
  refine ⟨l.takeWhile isPyWS, ((l.dropWhile isPyWS).reverse.takeWhile isPyWS).reverse, ?_⟩
  rw [← pyStrip_decomp_inner l, List.takeWhile_append_dropWhile]

/-- Stripping yields a sublist of the original. -/
theorem pyStrip_sublist (l : PyStr) : List.Sublist (pyStrip l) l := by
  obtain ⟨s, t, hst⟩ := pyStrip_decomp l
  have h1 : List.Sublist (pyStrip l) (pyStrip l ++ t) := List.sublist_append_left _ _
  have h2 : List.Sublist (pyStrip l ++ t) (s ++ (pyStrip l ++ t)) :=
    List.sublist_append_right _ _
  have h3 := h1.trans h2
  rwa [hst] at h3

/-- The stripped string does not start with whitespace. -/
theorem pyStrip_head_false (l : PyStr) :
    ∀ c ∈ (pyStrip l).head?, isPyWS c = false := by
  cases hps : pyStrip l with
  | nil => simp
  | cons x xs =>
    intro c hc
    simp only [List.head?_cons, Option.mem_def, Option.some.injEq] at hc
    refine dropWhile_head_false isPyWS l c ?_
    show (l.dropWhile isPyWS).head? = some c
    rw [pyStrip_decomp_inner l, hps, ← hc]
    rfl

/-- The stripped string does not end with whitespace. -/
theorem pyStrip_getLast_false (l : PyStr) :
    ∀ c ∈ (pyStrip l).getLast?, isPyWS c = false := by
  intro c hc
  rw [← List.head?_reverse] at hc
  have h2 : (pyStrip l).reverse = (l.dropWhile isPyWS).reverse.dropWhile isPyWS := by
    unfold pyStrip
    rw [List.reverse_reverse]
  rw [h2] at hc
  exact dropWhile_head_false isPyWS _ c hc

/-- Stripping an already-stripped string changes nothing. -/
theorem pyStrip_idem (l : PyStr) : pyStrip (pyStrip l) = pyStrip l := by
  have h1 : (pyStrip l).dropWhile isPyWS = pyStrip l :=
    dropWhile_eq_self_of_head isPyWS _ (pyStrip_head_false l)
  have h2 : (pyStrip l).reverse = (l.dropWhile isPyWS).reverse.dropWhile isPyWS := by
    unfold pyStrip
    rw [List.reverse_reverse]
  show (((pyStrip l).dropWhile isPyWS).reverse.dropWhile isPyWS).reverse = pyStrip l
  rw [h1, h2, dropWhile_eq_self_of_head isPyWS _ (dropWhile_head_false isPyWS _), ← h2,
    List.reverse_reverse]

/-- Stripping preserves freedom from double spaces. -/
theorem noDblSpace_pyStrip (l : PyStr) (h : NoDblSpace l) : NoDblSpace (pyStrip l) := by
  obtain ⟨s, t, hst⟩ := pyStrip_decomp l
  rw [← List.append_assoc] at hst
  exact List.Chain'.infix h ⟨s, t, hst⟩

/-- Stripping preserves acceptance by the newline checker. -/
theorem nt3Aux_pyStrip (l : PyStr) (h : nt3Aux 0 l = true) :
    nt3Aux 0 (pyStrip l) = true := by
  obtain ⟨s, t, hst⟩ := pyStrip_decomp l
  rw [← hst] at h
  exact nt3Aux_append_left 0 _ t (nt3Aux_append_right 0 s _ h)

/-- The normalizer's output has no NUL. -/
theorem noNul_clean_text (l : PyStr) : NoNul (clean_text l) := by
  intro c hc
  have hz := (pyStrip_sublist (collapseNLAux 0 (collapseHWS (replaceNul l)))).subset hc
  rcases mem_collapseNLAux 0 _ hz with h | h
  · subst h; decide
  · rcases mem_collapseHWSAux false _ h with h' | h'
    · subst h'; decide
    · exact noNul_replaceNul l c h'

/-- The normalizer's output has no tab and no carriage return. -/
theorem noTabCR_clean_text (l : PyStr) : NoTabCR (clean_text l) := by
  intro c hc
  have hz := (pyStrip_sublist (collapseNLAux 0 (collapseHWS (replaceNul l)))).subset hc
  rcases mem_collapseNLAux 0 _ hz with h | h
  · subst h; exact ⟨by decide, by decide⟩
  · exact noTabCR_collapseHWSAux false _ c h

/-- The normalizer's output has no two adjacent spaces. -/
theorem noDblSpace_clean_text (l : PyStr) : NoDblSpace (clean_text l) :=
  noDblSpace_pyStrip _
    (noDblSpace_collapseNLAux 0 _ (noDblSpace_collapseHWSAux false _))

/-- The newline checker accepts the normalizer's output. -/
theorem nt3Aux_clean_text (l : PyStr) : nt3Aux 0 (clean_text l) = true :=
  nt3Aux_pyStrip _ (nt3Aux_collapseNLAux 0 _)

/-- C4: the Text Normalizer is idempotent: for every input string,
`_clean_text (_clean_text s) = _clean_text s`. -/
theorem clean_text_idem (l : PyStr) : clean_text (clean_text l) = clean_text l := by
  show pyStrip (collapseNLAux 0 (collapseHWSAux false (replaceNul (clean_text l)))) =
    clean_text l
  rw [replaceNul_eq_self (noNul_clean_text l),
    collapseHWSAux_eq_self _ (noTabCR_clean_text l) (noDblSpace_clean_text l),
    collapseNLAux_eq_self 0 _ (nt3Aux_clean_text l),
    show clean_text l = pyStrip (collapseNLAux 0 (collapseHWS (replaceNul l))) from rfl,
    pyStrip_idem]

/-- C10: for every input string, the normalizer's output contains no NUL, no
tab and no carriage return, contains no run of three or more consecutive
newlines (it is accepted by the newline checker, and admits no decomposition
around three adjacent newlines), and has no leading or trailing whitespace
(stripping it again changes nothing, and its first and last characters, when
present, are not whitespace). -/
theorem clean_text_invariants (l : PyStr) :
    (∀ c ∈ clean_text l, c ≠ '\x00' ∧ c ≠ '\t' ∧ c ≠ '\r') ∧
    nt3Aux 0 (clean_text l) = true ∧
    (∀ a b : PyStr, clean_text l ≠ a ++ '\n' :: '\n' :: '\n' :: b) ∧
    pyStrip (clean_text l) = clean_text l ∧
    (∀ c ∈ (clean_text l).head?, isPyWS c = false) ∧
    (∀ c ∈ (clean_text l).getLast?, isPyWS c = false) := by
  refine ⟨fun c hc => ⟨noNul_clean_text l c hc, noTabCR_clean_text l c hc⟩,
    nt3Aux_clean_text l, fun a b heq => ?_, ?_,
    pyStrip_head_false _, pyStrip_getLast_false _⟩
  · have h := nt3Aux_clean_text l
    rw [heq] at h
    have h2 := nt3Aux_append_right 0 a _ h
    simp [nt3Aux] at h2
  · show pyStrip (pyStrip (collapseNLAux 0 (collapseHWS (replaceNul l)))) = _
    rw [pyStrip_idem]
    rfl

/-- Witness for `clean_text_invariants` at the concrete input
`" h\ti\n\n\n\nj "`, whose normal form is `"h i\n\nj"`. -/
theorem clean_text_invariants_witness :
    ('h' ≠ '\x00' ∧ 'h' ≠ '\t' ∧ 'h' ≠ '\r') ∧
    (clean_text " h\ti\n\n\n\nj ".data ≠ ['\n', '\n', '\n']) ∧
    isPyWS 'h' = false ∧ isPyWS 'j' = false :=
  ⟨(clean_text_invariants " h\ti\n\n\n\nj ".data).1 'h' (by decide),
    (clean_text_invariants " h\ti\n\n\n\nj ".data).2.2.1 [] [],
    (clean_text_invariants " h\ti\n\n\n\nj ".data).2.2.2.2.1 'h' (by decide),
    (clean_text_invariants " h\ti\n\n\n\nj ".data).2.2.2.2.2 'j' (by decide)⟩
